import Mathlib

/-!
Shallow embedding of the candidate-analysis pipeline of
`src/noveltygrinder.py` (novelty-grinder). Moves are identified by their
SAN string (the program normalizes all move comparisons through
`curBoard.san`), engine scores are integers (centipawn-or-equivalent with
mate collapsed to a sentinel by the adapter), and the Lichess explorer
frequencies are rationals. External engine calls are modelled as oracle
functions passed in as parameters.
-/

namespace NoveltyGrinder

/-- Mirrors class `AnalysisMoveInfo`: one analyzed move with its engine
evaluation, per-PV node count, classification flags and principal
variation. -/
structure AnalysisMoveInfo where
  move : String
  evalCp : Int
  nodes : Nat
  freq : ℚ
  novelty : Bool
  inputMove : Bool
  strongMove : Bool
  unpopularMove : Bool
  pv : List String
deriving Repr, DecidableEq

/-- Mirrors `AnalysisMoveInfo.__init__(evalCp, nodes, pv)`: `move` is
`pv[0]`, and the flags start as novelty/strong/unpopular with
`inputMove = False` and `freq = 0`. -/
def mkAnalysisMoveInfo (evalCp : Int) (nodes : Nat) (pv : List String) : AnalysisMoveInfo :=
  { move := pv.headI
    evalCp := evalCp
    nodes := nodes
    freq := 0
    novelty := true
    inputMove := false
    strongMove := true
    unpopularMove := true
    pv := pv }

instance : Inhabited AnalysisMoveInfo := ⟨mkAnalysisMoveInfo 0 0 []⟩

/-- One entry of the raw engine response (`info` in `engineAnalysis`): the
score and the principal variation may each be missing. -/
structure RawLine where
  score : Option Int
  nodes : Nat
  pv : Option (List String)

/-- The filtering loop of `engineAnalysis`: keep only lines that have a
score and a non-empty pv, turning each kept line into an
`AnalysisMoveInfo`. -/
def buildAnalysisMoves : List RawLine → List AnalysisMoveInfo
  | [] => []
  | i :: rest =>
    match i.score, i.pv with
    | some s, some pv =>
      if 0 < pv.length then mkAnalysisMoveInfo s i.nodes pv :: buildAnalysisMoves rest
      else buildAnalysisMoves rest
    | some _, none => buildAnalysisMoves rest
    | none, _ => buildAnalysisMoves rest

/-- Mirrors `engineAnalysis`: returns the surviving lines and the candidate
threshold `analysisMoves[0].evalCp - options.evalThresholdCp`, or
`([], 0)` when no line survives. -/
def engineAnalysis (info : List RawLine) (evalThresholdCpOpt : Int) :
    List AnalysisMoveInfo × Int :=
  match buildAnalysisMoves info with
  | [] => ([], 0)
  | top :: rest => (top :: rest, top.evalCp - evalThresholdCpOpt)

/-- The per-candidate update done at the head of the `pruneWeakMoves` loop:
`am.strongMove = (am.evalCp >= evalThresholdCp)`. -/
def setStrong (evalThresholdCp : Int) (am : AnalysisMoveInfo) : AnalysisMoveInfo :=
  { am with strongMove := decide (evalThresholdCp ≤ am.evalCp) }

/-- Mirrors `pruneWeakMoves`: recompute `strongMove` against the threshold
and keep a candidate when it is strong or an input move. -/
def pruneWeakMoves : List AnalysisMoveInfo → Int → List AnalysisMoveInfo
  | [], _ => []
  | am :: rest, evalThresholdCp =>
    let amUpd := setStrong evalThresholdCp am
    if amUpd.strongMove || amUpd.inputMove then amUpd :: pruneWeakMoves rest evalThresholdCp
    else pruneWeakMoves rest evalThresholdCp

/-- The loop of `forceAddInputMoves` over the engine moves: `slots` holds
the first `numInputs` entries of `ret` (one per input-tree variation) and
`tailMoves` the engine moves appended after them. A matching engine move
overwrites every matching slot (flagged as input move) instead of being
appended. -/
def mergeInputLoop (slots tailMoves : List AnalysisMoveInfo) :
    List AnalysisMoveInfo → List AnalysisMoveInfo × List AnalysisMoveInfo
  | [] => (slots, tailMoves)
  | am :: rest =>
    if slots.any (fun s => s.move == am.move) then
      mergeInputLoop
        (slots.map (fun s => if s.move == am.move then { am with inputMove := true } else s))
        tailMoves rest
    else
      mergeInputLoop slots (tailMoves ++ [am]) rest

/-- Mirrors `forceAddInputMoves`: seed one zero-score input candidate per
variation of the input node, then fold the engine moves over them. -/
def forceAddInputMoves (analysisMoves : List AnalysisMoveInfo) (variations : List String) :
    List AnalysisMoveInfo :=
  let init := variations.map (fun v => { mkAnalysisMoveInfo 0 0 [v] with inputMove := true })
  let merged := mergeInputLoop init [] analysisMoves
  merged.1 ++ merged.2

/-- Mirrors `filterOutVariations`: drop candidates whose move is already a
variation of the input node. -/
def filterOutVariations : List AnalysisMoveInfo → List String → List AnalysisMoveInfo
  | [], _ => []
  | am :: rest, variations =>
    if variations.contains am.move then filterOutVariations rest variations
    else am :: filterOutVariations rest variations

/-- One restricted-search engine response used by the double-check stage
(`info[0]` of `engine.analyse(..., root_moves=[am.move])`). -/
structure EngineResult where
  evalCp : Int
  nodes : Nat
  pv : List String

/-- The body of the `engineAnalysisDoubleCheck` loop for one candidate:
`spentNodes` is the zero-budget probe (`PerPVCounters` off) reporting the
nodes already spent on the move, `analyseRestricted` the engine restricted
to the move with the given node limit. -/
def doubleCheckOne (spentNodes : String → Nat) (analyseRestricted : String → Nat → EngineResult)
    (doubleCheckNodes : Nat) (am : AnalysisMoveInfo) : AnalysisMoveInfo :=
  let totalNodes := spentNodes am.move
  if am.nodes < doubleCheckNodes then
    let newNodes := doubleCheckNodes - am.nodes
    let r := analyseRestricted am.move (totalNodes + newNodes)
    { am with move := r.pv.headI, nodes := r.nodes, evalCp := r.evalCp, pv := r.pv }
  else am

/-- Mirrors `engineAnalysisDoubleCheck`: refine each candidate in turn,
appending the (possibly updated) candidate to the result. -/
def engineAnalysisDoubleCheck (spentNodes : String → Nat)
    (analyseRestricted : String → Nat → EngineResult) (doubleCheckNodes : Nat) :
    List AnalysisMoveInfo → List AnalysisMoveInfo
  | [] => []
  | am :: rest =>
    doubleCheckOne spentNodes analyseRestricted doubleCheckNodes am ::
      engineAnalysisDoubleCheck spentNodes analyseRestricted doubleCheckNodes rest

/-- One entry of `openingStats['moves']`: the move (normalized through
`curBoard.san` before use) with its white/draw/black game counts. -/
structure StatMove where
  uci : String
  white : Nat
  draws : Nat
  black : Nat

/-- The Lichess masters response used by the pipeline. -/
structure OpeningStats where
  white : Nat
  draws : Nat
  black : Nat
  moves : List StatMove

/-- The `uciStrToNumGames` dictionary of `filterOutPopularMovesAddFreq`:
each stat move assigns its total count to its normalized key, a later
entry overwriting an earlier one with the same key. -/
def bookDict (moves : List StatMove) : String → Option Nat :=
  moves.foldl
    (fun d sm => fun k => if k = sm.uci then some (sm.white + sm.draws + sm.black) else d k)
    (fun _ => none)

/-- The classification loop of `filterOutPopularMovesAddFreq` over the
candidates, given the book dictionary. -/
def classifyLoop (dict : String → Option Nat) (gamesThreshold : ℚ) (totalGames : Nat) :
    List AnalysisMoveInfo → List AnalysisMoveInfo
  | [] => []
  | am :: rest =>
    match dict am.move with
    | some n =>
      let amUpd := { am with unpopularMove := decide ((n : ℚ) ≤ gamesThreshold) }
      if amUpd.unpopularMove || amUpd.inputMove then
        { amUpd with freq := (n : ℚ) / (totalGames : ℚ), novelty := false } ::
          classifyLoop dict gamesThreshold totalGames rest
      else classifyLoop dict gamesThreshold totalGames rest
    | none =>
      { am with freq := 0, novelty := true, unpopularMove := true } ::
        classifyLoop dict gamesThreshold totalGames rest

/-- Mirrors `filterOutPopularMovesAddFreq`. -/
def filterOutPopularMovesAddFreq (analysisMoves : List AnalysisMoveInfo)
    (openingStats : OpeningStats) (gamesThreshold : ℚ) (totalGames : Nat) :
    List AnalysisMoveInfo :=
  classifyLoop (bookDict openingStats.moves) gamesThreshold totalGames analysisMoves

/-- `totalGames` as computed in `analyzePosition`. -/
def totalGamesOf (s : OpeningStats) : Nat := s.white + s.draws + s.black

/-- The `gamesThreshold` computation of `analyzePosition`:
`totalGames * rarityThresholdFreq`, raised to `rarityThresholdCount` when
smaller. -/
def gamesThreshold (totalGames : Nat) (rarityThresholdFreq : ℚ)
    (rarityThresholdCount : Nat) : ℚ :=
  let g : ℚ := (totalGames : ℚ) * rarityThresholdFreq
  if g < (rarityThresholdCount : ℚ) then (rarityThresholdCount : ℚ) else g

/-- The arrow colors used in the `[%cal ...]` directive: `G` for unpopular
moves, `R` for novelties. -/
inductive ArrowColor
  | green
  | red
deriving Repr, DecidableEq

/-- Render of the color letter in front of the UCI string. -/
def ArrowColor.code : ArrowColor → String
  | ArrowColor.green => "G"
  | ArrowColor.red => "R"

/-- One arrow entry, rendered as `f"G{uci}"` or `f"R{uci}"` in the
source. -/
structure ArrowString where
  color : ArrowColor
  uci : String
deriving Repr, DecidableEq

/-- Render of one arrow entry. -/
def ArrowString.render (a : ArrowString) : String := a.color.code ++ a.uci

/-- Set insertion (`set.add`) for arrow entries. -/
def addArrow (s : List ArrowString) (a : ArrowString) : List ArrowString :=
  if s.contains a then s else s ++ [a]

/-- The arrow-collection loop of `analyzePosition`: a strong novelty adds a
red arrow to the novelty set, a strong unpopular non-novelty adds a green
arrow to the unpopular set. -/
def arrowLoop (unpop nov : List ArrowString) :
    List AnalysisMoveInfo → List ArrowString × List ArrowString
  | [] => (unpop, nov)
  | m :: rest =>
    if m.novelty then
      if m.strongMove then arrowLoop unpop (addArrow nov ⟨ArrowColor.red, m.move⟩) rest
      else arrowLoop unpop nov rest
    else
      if m.unpopularMove && m.strongMove then
        arrowLoop (addArrow unpop ⟨ArrowColor.green, m.move⟩) nov rest
      else arrowLoop unpop nov rest

/-- The `arrowStrings` list of `analyzePosition`: the unpopular arrows
followed by the novelty arrows. -/
def arrowStrings (analysisMoves : List AnalysisMoveInfo) : List ArrowString :=
  (arrowLoop [] [] analysisMoves).1 ++ (arrowLoop [] [] analysisMoves).2

/-- The arrow directive appended to the position comment: emitted exactly
when arrows are enabled and at least one arrow string exists. -/
def arrowDirective (arrows : Bool) (analysisMoves : List AnalysisMoveInfo) : Option String :=
  if arrows && decide (0 < (arrowStrings analysisMoves).length) then
    some (" [%cal " ++
      String.intercalate "," ((arrowStrings analysisMoves).map ArrowString.render) ++ "]")
  else none

/-- The retry loop of `getOpeningStats`, entered at attempt number `i`
(the source increments `i` before each query, so the first call has
`i = 1`). `query` is the Lichess explorer call; the returned list records
the sleeps (`1 + i * 2` seconds) performed between attempts. -/
def getOpeningStatsFrom {E S : Type} (query : Nat → Except E S) (i : Nat) :
    Except E S × List Nat :=
  match query i with
  | Except.ok s => (Except.ok s, [])
  | Except.error e =>
    if h : i < 3 then
      let r := getOpeningStatsFrom query (i + 1)
      (r.1, (1 + i * 2) :: r.2)
    else (Except.error e, [])
termination_by 3 - i
decreasing_by omega

/-- Mirrors `getOpeningStats`: the loop starting at attempt 1. -/
def getOpeningStats {E S : Type} (query : Nat → Except E S) : Except E S × List Nat :=
  getOpeningStatsFrom query 1

/-- The slice of the option record that the pipeline reads. -/
structure Options where
  evalThresholdCp : Int
  initialEvalMarginCp : Int
  rarityThresholdFreq : ℚ
  rarityThresholdCount : Nat
  doubleCheckNodes : Nat
  includeInput : Bool

/-- The candidate pipeline of `analyzePosition` after the book cut-off
check: engine analysis, optional input-move merge, initial strength prune
(with the extra margin), optional variation filter, popularity
classification, double-check refinement and final strength prune. -/
def analyzePositionPipeline (opts : Options) (info : List RawLine) (variations : List String)
    (openingStats : OpeningStats) (spentNodes : String → Nat)
    (analyseRestricted : String → Nat → EngineResult) : List AnalysisMoveInfo :=
  let analyzed := engineAnalysis info opts.evalThresholdCp
  let moves1 :=
    if opts.includeInput then forceAddInputMoves analyzed.1 variations else analyzed.1
  let moves2 := pruneWeakMoves moves1 (analyzed.2 - opts.initialEvalMarginCp)
  let moves3 := if !opts.includeInput then filterOutVariations moves2 variations else moves2
  let totalGames := totalGamesOf openingStats
  let moves4 := filterOutPopularMovesAddFreq moves3 openingStats
    (gamesThreshold totalGames opts.rarityThresholdFreq opts.rarityThresholdCount) totalGames
  let moves5 := engineAnalysisDoubleCheck spentNodes analyseRestricted opts.doubleCheckNodes moves4
  pruneWeakMoves moves5 analyzed.2

/-- The same pipeline with the two strength-prune thresholds taken as
explicit parameters, used to state which thresholds the program passes to
the two prune passes. -/
def pipelineWithThresholds (opts : Options) (info : List RawLine) (variations : List String)
    (openingStats : OpeningStats) (spentNodes : String → Nat)
    (analyseRestricted : String → Nat → EngineResult) (tauInitial tauFinal : Int) :
    List AnalysisMoveInfo :=
  let moves0 := buildAnalysisMoves info
  let moves1 :=
    if opts.includeInput then forceAddInputMoves moves0 variations else moves0
  let moves2 := pruneWeakMoves moves1 tauInitial
  let moves3 := if !opts.includeInput then filterOutVariations moves2 variations else moves2
  let totalGames := totalGamesOf openingStats
  let moves4 := filterOutPopularMovesAddFreq moves3 openingStats
    (gamesThreshold totalGames opts.rarityThresholdFreq opts.rarityThresholdCount) totalGames
  let moves5 := engineAnalysisDoubleCheck spentNodes analyseRestricted opts.doubleCheckNodes moves4
  pruneWeakMoves moves5 tauFinal

/-- The walker options read by the game loop of `analyzeGame`. -/
structure WalkerOptions where
  firstMove : Nat
  bookCutoff : Nat
  whiteEngine : Bool
  blackEngine : Bool

/-- One mainline ply of the input game, with the book size the reference
service would report for its position. -/
structure Ply where
  fullmoveNumber : Nat
  turnWhite : Bool
  totalGames : Nat

/-- What the walker did at one ply: whether the reference database was
queried, whether the engine was invoked, and whether the mainline move was
copied into the output tree. -/
structure PlyResult where
  refCall : Bool
  engineCall : Bool
  moveCopied : Bool
deriving Repr, DecidableEq

/-- Engine selection by side to move. -/
def engineFor (cfg : WalkerOptions) (p : Ply) : Bool :=
  if p.turnWhite then cfg.whiteEngine else cfg.blackEngine

/-- One iteration of the `analyzeGame` loop: `stopAnalysis` is the latch.
When the ply is not skipped and an engine exists, `analyzePosition` runs:
it always queries the book, and stops before any engine call exactly when
`totalGames < bookCutoff` (returning `False`, which sets the latch). The
mainline move is copied in every case. -/
def walkStep (cfg : WalkerOptions) (stopAnalysis : Bool) (p : Ply) : Bool × PlyResult :=
  let skip := stopAnalysis || decide (p.fullmoveNumber < cfg.firstMove)
  if !skip && engineFor cfg p then
    if p.totalGames < cfg.bookCutoff then
      (true, { refCall := true, engineCall := false, moveCopied := true })
    else
      (false, { refCall := true, engineCall := true, moveCopied := true })
  else
    (stopAnalysis, { refCall := false, engineCall := false, moveCopied := true })

/-- The walk of one game: the latch state is threaded through the plies. -/
def analyzeGameWalk (cfg : WalkerOptions) (stopAnalysis : Bool) : List Ply → List PlyResult
  | [] => []
  | p :: rest =>
    let step := walkStep cfg stopAnalysis p
    step.2 :: analyzeGameWalk cfg step.1 rest

/-- The guard of the `engineAnalysis` filtering loop:
`('score' in i) and ('pv' in i) and (len(i['pv']) > 0)`. -/
def validRawLine (l : RawLine) : Bool :=
  l.score.isSome && l.pv.isSome && decide (0 < (l.pv.getD []).length)

/-- The candidate a surviving raw line is turned into. -/
def rawLineToMove (l : RawLine) : AnalysisMoveInfo :=
  mkAnalysisMoveInfo (l.score.getD 0) l.nodes (l.pv.getD [])

/-- Specification-side per-candidate classifier of the popularity stage:
`none` means the candidate is dropped. -/
def classifyMoveSpec (stats : OpeningStats) (gamesThreshold : ℚ) (totalGames : Nat)
    (am : AnalysisMoveInfo) : Option AnalysisMoveInfo :=
  match bookDict stats.moves am.move with
  | none => some { am with freq := 0, novelty := true, unpopularMove := true }
  | some n =>
    if decide ((n : ℚ) ≤ gamesThreshold) || am.inputMove then
      some { am with unpopularMove := decide ((n : ℚ) ≤ gamesThreshold),
                     freq := (n : ℚ) / (totalGames : ℚ), novelty := false }
    else none

lemma setStrong_move (tau : Int) (am : AnalysisMoveInfo) : (setStrong tau am).move = am.move :=
  rfl

lemma setStrong_evalCp (tau : Int) (am : AnalysisMoveInfo) :
    (setStrong tau am).evalCp = am.evalCp := rfl

lemma setStrong_inputMove (tau : Int) (am : AnalysisMoveInfo) :
    (setStrong tau am).inputMove = am.inputMove := rfl

lemma setStrong_idem (tau : Int) (am : AnalysisMoveInfo) :
    setStrong tau (setStrong tau am) = setStrong tau am := rfl

lemma pruneWeakMoves_eq (l : List AnalysisMoveInfo) (tau : Int) :
    pruneWeakMoves l tau =
      (l.filter (fun c => decide (tau ≤ c.evalCp) || c.inputMove)).map (setStrong tau) := by
  induction l with
  | nil => rfl
  | cons am rest ih =>
    by_cases h1 : tau ≤ am.evalCp
    · simp [pruneWeakMoves, setStrong, List.filter_cons, h1, ih]
    · by_cases h2 : am.inputMove
      · simp [pruneWeakMoves, setStrong, List.filter_cons, h1, h2, ih]
      · simp [pruneWeakMoves, setStrong, List.filter_cons, h1, h2, ih]

/-- C10: `pruneWeakMoves` is idempotent: applying it again with the same
threshold to its own output returns the same list, every survivor has
`evalCp ≥ τ` or is an input move, and recomputing `strongMove` on a
survivor does not change it. -/
theorem pruneWeakMoves_idem_C10 (l : List AnalysisMoveInfo) (tau : Int) :
    pruneWeakMoves (pruneWeakMoves l tau) tau = pruneWeakMoves l tau ∧
    ∀ c ∈ pruneWeakMoves l tau, (tau ≤ c.evalCp ∨ c.inputMove = true) ∧ setStrong tau c = c := by
  constructor
  · induction l with
    | nil => rfl
    | cons am rest ih =>
      by_cases h1 : tau ≤ am.evalCp
      · simp [pruneWeakMoves, setStrong, h1, ih]
      · by_cases h2 : am.inputMove
        · simp [pruneWeakMoves, setStrong, h1, h2, ih]
        · simp [pruneWeakMoves, setStrong, h1, h2, ih]
  · intro c hc
    rw [pruneWeakMoves_eq] at hc
    rcases List.mem_map.mp hc with ⟨c0, hc0, rfl⟩
    rcases List.mem_filter.mp hc0 with ⟨-, hcond⟩
    refine ⟨?_, setStrong_idem tau c0⟩
    rcases Bool.or_eq_true_iff.mp hcond with h | h
    · exact Or.inl (by simpa [setStrong_evalCp] using of_decide_eq_true h)
    · exact Or.inr (by simpa [setStrong_inputMove] using h)

/-- C1: the strength prune retains exactly the candidates with
`evalCp ≥ τ` together with all input-flagged candidates, in their
original relative order (a filter) with `strongMove` recomputed; and the
pipeline runs the initial prune at
`topScore − evalThreshold − initialEvalMargin` and the final prune at
`topScore − evalThreshold`, where `topScore` is the first surviving
engine line's score. -/
theorem strengthPrune_C1 (opts : Options) (info : List RawLine) (variations : List String)
    (openingStats : OpeningStats) (spentNodes : String → Nat)
    (analyseRestricted : String → Nat → EngineResult)
    (hne : buildAnalysisMoves info ≠ []) :
    (∀ (l : List AnalysisMoveInfo) (tau : Int),
        pruneWeakMoves l tau =
          (l.filter (fun c => decide (tau ≤ c.evalCp) || c.inputMove)).map (setStrong tau)) ∧
    analyzePositionPipeline opts info variations openingStats spentNodes analyseRestricted =
      pipelineWithThresholds opts info variations openingStats spentNodes analyseRestricted
        ((buildAnalysisMoves info).headI.evalCp - opts.evalThresholdCp -
          opts.initialEvalMarginCp)
        ((buildAnalysisMoves info).headI.evalCp - opts.evalThresholdCp) := by
  refine ⟨pruneWeakMoves_eq, ?_⟩
  obtain ⟨top, rest, h⟩ : ∃ top rest, buildAnalysisMoves info = top :: rest := by
    cases hb : buildAnalysisMoves info with
    | nil => exact absurd hb hne
    | cons top rest => exact ⟨top, rest, rfl⟩
  unfold analyzePositionPipeline pipelineWithThresholds engineAnalysis
  rw [h]
  simp [List.headI, Int.sub_sub]

/-- Witness for C1 at a concrete engine response. -/
theorem strengthPrune_C1_witness :
    (∀ (l : List AnalysisMoveInfo) (tau : Int),
        pruneWeakMoves l tau =
          (l.filter (fun c => decide (tau ≤ c.evalCp) || c.inputMove)).map (setStrong tau)) ∧
    analyzePositionPipeline ⟨200, 300, 1 / 20, 0, 100, false⟩
        [⟨some 9000, 50, some ["e4"]⟩] [] ⟨20, 10, 10, []⟩ (fun _ => 0)
        (fun _ _ => ⟨0, 0, []⟩) =
      pipelineWithThresholds ⟨200, 300, 1 / 20, 0, 100, false⟩
        [⟨some 9000, 50, some ["e4"]⟩] [] ⟨20, 10, 10, []⟩ (fun _ => 0)
        (fun _ _ => ⟨0, 0, []⟩)
        ((buildAnalysisMoves [⟨some 9000, 50, some ["e4"]⟩]).headI.evalCp - 200 - 300)
        ((buildAnalysisMoves [⟨some 9000, 50, some ["e4"]⟩]).headI.evalCp - 200) :=
  strengthPrune_C1 ⟨200, 300, 1 / 20, 0, 100, false⟩ [⟨some 9000, 50, some ["e4"]⟩] []
    ⟨20, 10, 10, []⟩ (fun _ => 0) (fun _ _ => ⟨0, 0, []⟩) (by decide)

lemma bookDict_foldl_none (ms : List StatMove) (d : String → Option Nat) (k : String) :
    (ms.foldl
        (fun d sm => fun x =>
          if x = sm.uci then some (sm.white + sm.draws + sm.black) else d x) d) k = none ↔
      d k = none ∧ ∀ sm ∈ ms, sm.uci ≠ k := by
  induction ms generalizing d with
  | nil => simp
  | cons sm rest ih =>
    rw [List.foldl_cons, ih]
    by_cases h : k = sm.uci
    · simp [h]
    · simp [h, fun hcontra : sm.uci = k => h hcontra.symm]
      tauto

lemma bookDict_none_iff (ms : List StatMove) (k : String) :
    bookDict ms k = none ↔ ∀ sm ∈ ms, sm.uci ≠ k := by
  unfold bookDict
  rw [bookDict_foldl_none]
  simp

lemma classifyLoop_eq (stats : OpeningStats) (gt : ℚ) (tg : Nat)
    (l : List AnalysisMoveInfo) :
    filterOutPopularMovesAddFreq l stats gt tg = l.filterMap (classifyMoveSpec stats gt tg) := by
  induction l with
  | nil => rfl
  | cons am rest ih =>
    unfold filterOutPopularMovesAddFreq at ih ⊢
    rw [List.filterMap_cons]
    cases h : bookDict stats.moves am.move with
    | none => simp [classifyLoop, classifyMoveSpec, h, ih]
    | some n =>
      by_cases hc : (decide ((n : ℚ) ≤ gt) || am.inputMove) = true
      · simp [classifyLoop, classifyMoveSpec, h, hc, ih]
      · simp [classifyLoop, classifyMoveSpec, h, hc, ih]

/-- C3: a candidate absent from the book is retained with
`isNovelty = true`, `isUnpopular = true`, `frequency = 0` regardless of the
threshold; one present with count above the threshold is dropped unless it
is an input move; and every retained present candidate gets
`isNovelty = false` and `frequency = count / totalGames`. -/
theorem filterOutPopular_C3 (stats : OpeningStats) (gt : ℚ) (tg : Nat)
    (l : List AnalysisMoveInfo) :
    filterOutPopularMovesAddFreq l stats gt tg = l.filterMap (classifyMoveSpec stats gt tg) ∧
    (∀ m, bookDict stats.moves m = none ↔ ∀ sm ∈ stats.moves, sm.uci ≠ m) ∧
    (∀ am, bookDict stats.moves am.move = none →
        classifyMoveSpec stats gt tg am =
          some { am with freq := 0, novelty := true, unpopularMove := true }) ∧
    (∀ am n, bookDict stats.moves am.move = some n → gt < (n : ℚ) → am.inputMove = false →
        classifyMoveSpec stats gt tg am = none) ∧
    (∀ am n b, bookDict stats.moves am.move = some n →
        classifyMoveSpec stats gt tg am = some b →
        b.novelty = false ∧ b.freq = (n : ℚ) / (tg : ℚ)) := by
  refine ⟨classifyLoop_eq stats gt tg l, fun m => bookDict_none_iff stats.moves m, ?_, ?_, ?_⟩
  · intro am h
    simp [classifyMoveSpec, h]
  · intro am n h hgt hinp
    simp [classifyMoveSpec, h, hinp, not_le.mpr hgt]
  · intro am n b h hb
    simp only [classifyMoveSpec, h] at hb
    by_cases hc : (decide ((n : ℚ) ≤ gt) || am.inputMove) = true
    · rw [if_pos hc] at hb
      cases Option.some_inj.mp hb
      exact ⟨rfl, rfl⟩
    · rw [if_neg hc] at hb
      exact Option.noConfusion hb

/-- C2: the popularity stage's `gamesThreshold` equals
`max(totalGames × rarityThresholdFreq, rarityThresholdCount)`, and a move
present in the book with count exactly equal to `gamesThreshold` is
classified unpopular (and retained), not popular: the boundary is
inclusive. -/
theorem gamesThreshold_C2 (t : Nat) (f : ℚ) (c : Nat) (stats : OpeningStats) (tg : Nat)
    (am : AnalysisMoveInfo) (n : Nat)
    (hn : bookDict stats.moves am.move = some n)
    (heq : (n : ℚ) = gamesThreshold t f c) :
    gamesThreshold t f c = max ((t : ℚ) * f) (c : ℚ) ∧
    filterOutPopularMovesAddFreq [am] stats (gamesThreshold t f c) tg =
      [{ am with unpopularMove := true, freq := (n : ℚ) / (tg : ℚ), novelty := false }] := by
  constructor
  · simp only [gamesThreshold]
    by_cases h : (t : ℚ) * f < (c : ℚ)
    · rw [if_pos h]
      exact (max_eq_right h.le).symm
    · rw [if_neg h]
      exact (max_eq_left (le_of_not_lt h)).symm
  · unfold filterOutPopularMovesAddFreq
    rw [← heq]
    simp [classifyLoop, hn]

lemma buildAnalysisMoves_eq (info : List RawLine) :
    buildAnalysisMoves info = (info.filter validRawLine).map rawLineToMove := by
  induction info with
  | nil => rfl
  | cons i rest ih =>
    rcases i with ⟨score, nodes, pv⟩
    cases score with
    | none => simp [buildAnalysisMoves, validRawLine, List.filter_cons, ih]
    | some s =>
      cases pv with
      | none => simp [buildAnalysisMoves, validRawLine, List.filter_cons, ih]
      | some pv =>
        by_cases h : 0 < pv.length
        · simp [buildAnalysisMoves, validRawLine, rawLineToMove, List.filter_cons, h, ih]
        · simp [buildAnalysisMoves, validRawLine, rawLineToMove, List.filter_cons, h, ih]

lemma engineAnalysis_fst (info : List RawLine) (c : Int) :
    (engineAnalysis info c).1 = (info.filter validRawLine).map rawLineToMove := by
  cases hb : buildAnalysisMoves info with
  | nil => simp [engineAnalysis, hb, ← buildAnalysisMoves_eq]
  | cons top rest => simp [engineAnalysis, hb, ← buildAnalysisMoves_eq]

/-- C7: raw engine lines lacking a score or a non-empty principal
variation (in particular lines lacking both) are discarded before reaching
the pipeline, and when no lines survive `engineAnalysis` returns the empty
candidate list with the sentinel threshold 0. -/
theorem engineAnalysis_C7 (info : List RawLine) (c : Int) :
    (engineAnalysis info c).1 = (info.filter validRawLine).map rawLineToMove ∧
    (info.filter validRawLine = [] → engineAnalysis info c = ([], 0)) ∧
    (∀ l ∈ info, l.score = none → validRawLine l = false) ∧
    (∀ l ∈ info, l.pv.getD [] = [] → validRawLine l = false) := by
  refine ⟨engineAnalysis_fst info c, ?_, ?_, ?_⟩
  · intro h
    have hb : buildAnalysisMoves info = [] := by
      rw [buildAnalysisMoves_eq, h, List.map_nil]
    simp [engineAnalysis, hb]
  · intro l _ h
    simp [validRawLine, h]
  · intro l _ h
    cases hp : l.pv with
    | none => simp [validRawLine, hp]
    | some pv =>
      rw [hp] at h
      simp only [Option.getD_some] at h
      simp [validRawLine, hp, h]

/-- Witness for C2: totalGames 40, rarity frequency 1/20, rarity count 0,
so the threshold is 2; a book move played exactly 2 times is classified
unpopular and retained. -/
theorem gamesThreshold_C2_witness :
    gamesThreshold 40 (1 / 20) 0 = max (((40 : Nat) : ℚ) * (1 / 20)) (((0 : Nat) : ℚ)) ∧
    filterOutPopularMovesAddFreq [mkAnalysisMoveInfo 0 0 ["e4"]]
        ⟨20, 10, 10, [⟨"e4", 2, 0, 0⟩]⟩ (gamesThreshold 40 (1 / 20) 0) 40 =
      [{ (mkAnalysisMoveInfo 0 0 ["e4"]) with
          unpopularMove := true,
          freq := ((2 : Nat) : ℚ) / ((40 : Nat) : ℚ),
          novelty := false }] :=
  gamesThreshold_C2 40 (1 / 20) 0 ⟨20, 10, 10, [⟨"e4", 2, 0, 0⟩]⟩ 40
    (mkAnalysisMoveInfo 0 0 ["e4"]) 2 (by decide) (by norm_num [gamesThreshold])

/-- C4: double-check refinement is an element-wise pass; a candidate whose
node count already meets `doubleCheckNodes` is passed through with all of
its fields unchanged, and one below the target is replaced by the
restricted re-search run with budget
`spentNodes + (doubleCheckNodes − candidate.nodes)`. -/
theorem doubleCheck_C4 (spentNodes : String → Nat)
    (analyseRestricted : String → Nat → EngineResult) (target : Nat)
    (l : List AnalysisMoveInfo) :
    engineAnalysisDoubleCheck spentNodes analyseRestricted target l =
      l.map (doubleCheckOne spentNodes analyseRestricted target) ∧
    (engineAnalysisDoubleCheck spentNodes analyseRestricted target l).length = l.length ∧
    (∀ am : AnalysisMoveInfo, target ≤ am.nodes →
        doubleCheckOne spentNodes analyseRestricted target am = am) ∧
    (∀ am : AnalysisMoveInfo, am.nodes < target →
        doubleCheckOne spentNodes analyseRestricted target am =
          { am with
              move := (analyseRestricted am.move
                (spentNodes am.move + (target - am.nodes))).pv.headI
              nodes := (analyseRestricted am.move
                (spentNodes am.move + (target - am.nodes))).nodes
              evalCp := (analyseRestricted am.move
                (spentNodes am.move + (target - am.nodes))).evalCp
              pv := (analyseRestricted am.move
                (spentNodes am.move + (target - am.nodes))).pv }) := by
  have hmap : engineAnalysisDoubleCheck spentNodes analyseRestricted target l =
      l.map (doubleCheckOne spentNodes analyseRestricted target) := by
    induction l with
    | nil => rfl
    | cons am rest ih => simp [engineAnalysisDoubleCheck, ih]
  refine ⟨hmap, by rw [hmap, List.length_map], ?_, ?_⟩
  · intro am h
    simp [doubleCheckOne, Nat.not_lt.mpr h]
  · intro am h
    simp [doubleCheckOne, h]

/-- C8: the opening-stats lookup makes at most 3 attempts, sleeping 3
seconds after the first failure and 5 after the second; a success on any
attempt returns immediately, and a third failure is propagated. -/
theorem getOpeningStats_C8 {E S : Type} (query : Nat → Except E S) :
    (∀ s, query 1 = Except.ok s → getOpeningStats query = (Except.ok s, [])) ∧
    (∀ e1 s, query 1 = Except.error e1 → query 2 = Except.ok s →
        getOpeningStats query = (Except.ok s, [3])) ∧
    (∀ e1 e2 s, query 1 = Except.error e1 → query 2 = Except.error e2 →
        query 3 = Except.ok s → getOpeningStats query = (Except.ok s, [3, 5])) ∧
    (∀ e1 e2 e3, query 1 = Except.error e1 → query 2 = Except.error e2 →
        query 3 = Except.error e3 →
        getOpeningStats query = (Except.error e3, [3, 5])) := by
  refine ⟨?_, ?_, ?_, ?_⟩
  · intro s h1
    unfold getOpeningStats getOpeningStatsFrom
    rw [h1]
  · intro e1 s h1 h2
    unfold getOpeningStats getOpeningStatsFrom
    rw [h1]
    unfold getOpeningStatsFrom
    rw [h2]
    rfl
  · intro e1 e2 s h1 h2 h3
    unfold getOpeningStats getOpeningStatsFrom
    rw [h1]
    unfold getOpeningStatsFrom
    rw [h2]
    unfold getOpeningStatsFrom
    rw [h3]
    rfl
  · intro e1 e2 e3 h1 h2 h3
    unfold getOpeningStats getOpeningStatsFrom
    rw [h1]
    unfold getOpeningStatsFrom
    rw [h2]
    unfold getOpeningStatsFrom
    rw [h3]
    rfl

instance : Inhabited PlyResult := ⟨{ refCall := false, engineCall := false, moveCopied := false }⟩

lemma analyzeGameWalk_cons (cfg : WalkerOptions) (b : Bool) (p : Ply) (ps : List Ply) :
    analyzeGameWalk cfg b (p :: ps) =
      (walkStep cfg b p).2 :: analyzeGameWalk cfg (walkStep cfg b p).1 ps := rfl

lemma analyzeGameWalk_halted (cfg : WalkerOptions) (ps : List Ply) :
    ∀ r ∈ analyzeGameWalk cfg true ps,
      r = { refCall := false, engineCall := false, moveCopied := true } := by
  induction ps with
  | nil => simp [analyzeGameWalk]
  | cons p rest ih =>
    intro r hr
    have hstep : walkStep cfg true p =
        (true, { refCall := false, engineCall := false, moveCopied := true }) := by
      simp [walkStep]
    rw [analyzeGameWalk_cons, hstep] at hr
    rcases List.mem_cons.mp hr with h | h
    · exact h
    · exact ih r h

/-- C5: once a ply triggers the book cut-off (`totalGames < bookCutoff` at
an analyzed ply), every later ply of the game makes no engine call and no
reference-database call while still copying the mainline move; the
cut-off ply itself made only the reference call; and a ply skipped because
its move number is below `firstMove` leaves the latch unchanged. -/
theorem walker_latch_C5 (cfg : WalkerOptions) (p : Ply) (rest : List Ply)
    (hfm : cfg.firstMove ≤ p.fullmoveNumber)
    (heng : engineFor cfg p = true)
    (hcut : p.totalGames < cfg.bookCutoff) :
    (∀ r ∈ (analyzeGameWalk cfg false (p :: rest)).tail,
        r.refCall = false ∧ r.engineCall = false ∧ r.moveCopied = true) ∧
    (analyzeGameWalk cfg false (p :: rest)).headI =
      { refCall := true, engineCall := false, moveCopied := true } ∧
    (∀ (q : Ply) (b : Bool), q.fullmoveNumber < cfg.firstMove →
        (walkStep cfg b q).1 = b) := by
  have hstep : walkStep cfg false p =
      (true, { refCall := true, engineCall := false, moveCopied := true }) := by
    simp [walkStep, heng, hcut, Nat.not_lt.mpr hfm]
  refine ⟨?_, ?_, ?_⟩
  · intro r hr
    rw [analyzeGameWalk_cons, hstep] at hr
    simp only [List.tail_cons] at hr
    rw [analyzeGameWalk_halted cfg rest r hr]
    exact ⟨rfl, rfl, rfl⟩
  · rw [analyzeGameWalk_cons, hstep]
    rfl
  · intro q b hq
    simp [walkStep, hq]

/-- Witness for C5: book cut-off at the first analyzed ply of a two-ply
game; the second ply (with a large book) is skipped. -/
theorem walker_latch_C5_witness :
    (∀ r ∈ (analyzeGameWalk ⟨1, 2, true, true⟩ false
        [⟨5, true, 0⟩, ⟨6, false, 1000000⟩]).tail,
        r.refCall = false ∧ r.engineCall = false ∧ r.moveCopied = true) ∧
    (analyzeGameWalk ⟨1, 2, true, true⟩ false
        [⟨5, true, 0⟩, ⟨6, false, 1000000⟩]).headI =
      { refCall := true, engineCall := false, moveCopied := true } ∧
    (∀ (q : Ply) (b : Bool), q.fullmoveNumber < (1 : Nat) →
        (walkStep ⟨1, 2, true, true⟩ b q).1 = b) :=
  walker_latch_C5 ⟨1, 2, true, true⟩ ⟨5, true, 0⟩ [⟨6, false, 1000000⟩]
    (by decide) (by decide) (by decide)

lemma addArrow_color (s : List ArrowString) (a : ArrowString) (c : ArrowColor)
    (hs : ∀ x ∈ s, x.color = c) (ha : a.color = c) : ∀ x ∈ addArrow s a, x.color = c := by
  intro x hx
  unfold addArrow at hx
  split at hx
  · exact hs x hx
  · rcases List.mem_append.mp hx with h | h
    · exact hs x h
    · rw [List.mem_singleton.mp h]
      exact ha

lemma arrowLoop_colors (ams : List AnalysisMoveInfo) :
    ∀ (unpop nov : List ArrowString),
      (∀ x ∈ unpop, x.color = ArrowColor.green) →
      (∀ x ∈ nov, x.color = ArrowColor.red) →
      (∀ x ∈ (arrowLoop unpop nov ams).1, x.color = ArrowColor.green) ∧
      (∀ x ∈ (arrowLoop unpop nov ams).2, x.color = ArrowColor.red) := by
  induction ams with
  | nil =>
    intro unpop nov hu hn
    exact ⟨hu, hn⟩
  | cons m rest ih =>
    intro unpop nov hu hn
    by_cases h1 : m.novelty
    · by_cases h2 : m.strongMove
      · simpa [arrowLoop, h1, h2] using
          ih unpop (addArrow nov ⟨ArrowColor.red, m.move⟩) hu
            (addArrow_color nov _ _ hn rfl)
      · simpa [arrowLoop, h1, h2] using ih unpop nov hu hn
    · by_cases h2 : m.unpopularMove && m.strongMove
      · simpa [arrowLoop, h1, h2] using
          ih (addArrow unpop ⟨ArrowColor.green, m.move⟩) nov
            (addArrow_color unpop _ _ hu rfl) hn
      · simpa [arrowLoop, h1, h2] using ih unpop nov hu hn

/-- C9: when arrows are enabled and at least one arrow string exists, the
emitted arrow directive is built from the unpopular-move arrows followed
by the novelty arrows: every green (unpopular) entry comes before every
red (novelty) entry. -/
theorem arrows_unpopular_first_C9 (ams : List AnalysisMoveInfo) (i j : Nat)
    (a b : ArrowString)
    (ha : (arrowStrings ams).get? i = some a)
    (hb : (arrowStrings ams).get? j = some b)
    (hag : a.color = ArrowColor.green)
    (hbr : b.color = ArrowColor.red) :
    i < j ∧
    arrowDirective true ams =
      some (" [%cal " ++
        String.intercalate "," ((arrowStrings ams).map ArrowString.render) ++ "]") := by
  obtain ⟨hgreen, hred⟩ :=
    arrowLoop_colors ams [] [] (by simp) (by simp)
  have hu : ∀ x ∈ (arrowLoop [] [] ams).1, x.color = ArrowColor.green := hgreen
  have hv : ∀ x ∈ (arrowLoop [] [] ams).2, x.color = ArrowColor.red := hred
  constructor
  · have hilt : i < (arrowLoop [] [] ams).1.length := by
      by_contra hle
      rw [not_lt] at hle
      rw [arrowStrings, List.get?_append_right hle] at ha
      have : b.color = ArrowColor.red := hbr
      have hmem : a ∈ (arrowLoop [] [] ams).2 := List.get?_mem ha
      rw [hv a hmem] at hag
      exact ArrowColor.noConfusion hag
    have hjge : (arrowLoop [] [] ams).1.length ≤ j := by
      by_contra hlt
      rw [not_le] at hlt
      rw [arrowStrings, List.get?_append hlt] at hb
      have hmem : b ∈ (arrowLoop [] [] ams).1 := List.get?_mem hb
      rw [hu b hmem] at hbr
      exact ArrowColor.noConfusion hbr
    exact lt_of_lt_of_le hilt hjge
  · have hlen : 0 < (arrowStrings ams).length := by
      have := List.get?_eq_some.mp ha
      exact Nat.lt_of_le_of_lt (Nat.zero_le i) this.1
    simp [arrowDirective, hlen]

/-- Witness for C9: one strong unpopular candidate and one strong novelty
candidate; the green arrow (index 0) precedes the red arrow (index 1). -/
theorem arrows_unpopular_first_C9_witness :
    0 < 1 ∧
    arrowDirective true
        [{ (mkAnalysisMoveInfo 100 0 ["g1"]) with novelty := false },
          mkAnalysisMoveInfo 90 0 ["r1"]] =
      some (" [%cal " ++
        String.intercalate ","
          ((arrowStrings
            [{ (mkAnalysisMoveInfo 100 0 ["g1"]) with novelty := false },
              mkAnalysisMoveInfo 90 0 ["r1"]]).map ArrowString.render) ++ "]") :=
  arrows_unpopular_first_C9
    [{ (mkAnalysisMoveInfo 100 0 ["g1"]) with novelty := false },
      mkAnalysisMoveInfo 90 0 ["r1"]] 0 1
    ⟨ArrowColor.green, "g1"⟩ ⟨ArrowColor.red, "r1"⟩
    (by decide) (by decide) rfl rfl

lemma pruneWeakMoves_move_sublist (l : List AnalysisMoveInfo) (tau : Int) :
    ((pruneWeakMoves l tau).map AnalysisMoveInfo.move).Sublist
      (l.map AnalysisMoveInfo.move) := by
  rw [pruneWeakMoves_eq, List.map_map]
  have h : AnalysisMoveInfo.move ∘ setStrong tau = AnalysisMoveInfo.move := rfl
  rw [h]
  exact (List.filter_sublist l).map AnalysisMoveInfo.move

lemma filterOutVariations_eq (l : List AnalysisMoveInfo) (variations : List String) :
    filterOutVariations l variations =
      l.filter (fun am => !(variations.contains am.move)) := by
  induction l with
  | nil => rfl
  | cons am rest ih =>
    by_cases h : variations.contains am.move <;>
      simp [filterOutVariations, List.filter_cons, h, ih]

lemma filterOutPopular_move_sublist (l : List AnalysisMoveInfo) (stats : OpeningStats)
    (gt : ℚ) (tg : Nat) :
    ((filterOutPopularMovesAddFreq l stats gt tg).map AnalysisMoveInfo.move).Sublist
      (l.map AnalysisMoveInfo.move) := by
  induction l with
  | nil => simp [filterOutPopularMovesAddFreq, classifyLoop]
  | cons am rest ih =>
    unfold filterOutPopularMovesAddFreq at ih ⊢
    cases h : bookDict stats.moves am.move with
    | none =>
      simp only [classifyLoop, h, List.map_cons]
      exact List.Sublist.cons₂ am.move ih
    | some n =>
      by_cases hc : (decide ((n : ℚ) ≤ gt) || am.inputMove) = true
      · simp only [classifyLoop, h, hc, if_true, List.map_cons]
        exact List.Sublist.cons₂ am.move ih
      · simp only [classifyLoop, h, hc, if_false, List.map_cons]
        exact List.Sublist.cons am.move ih

lemma contains_eq_any_move (slots : List AnalysisMoveInfo) (m : String) :
    (slots.map AnalysisMoveInfo.move).contains m = slots.any (fun s => s.move == m) := by
  rw [Bool.eq_iff_iff]
  simp [List.any_eq_true, List.mem_map]

lemma mergeInputLoop_spec (vars : List String) (ams : List AnalysisMoveInfo) :
    ∀ (slots tailMoves : List AnalysisMoveInfo),
      slots.map AnalysisMoveInfo.move = vars →
      (∀ s ∈ slots, s.inputMove = true) →
      ∃ finalSlots,
        mergeInputLoop slots tailMoves ams =
          (finalSlots, tailMoves ++ ams.filter (fun am => !(vars.contains am.move))) ∧
        finalSlots.map AnalysisMoveInfo.move = vars ∧
        ∀ s ∈ finalSlots, s.inputMove = true := by
  induction ams with
  | nil =>
    intro slots tailMoves h1 h2
    exact ⟨slots, by simp [mergeInputLoop], h1, h2⟩
  | cons am rest ih =>
    intro slots tailMoves h1 h2
    have hcond : vars.contains am.move = slots.any (fun s => s.move == am.move) := by
      rw [← h1, contains_eq_any_move]
    by_cases hc : slots.any (fun s => s.move == am.move) = true
    · -- the engine move overwrites the matching input slots
      set slotsUpd := slots.map
        (fun s => if s.move == am.move then { am with inputMove := true } else s) with hsu
      have hmove : slotsUpd.map AnalysisMoveInfo.move = vars := by
        rw [hsu, List.map_map, ← h1]
        apply List.map_congr_left
        intro s _
        by_cases hb : s.move = am.move
        · simp [Function.comp_apply, hb]
        · simp [Function.comp_apply, hb]
      have hinp : ∀ s ∈ slotsUpd, s.inputMove = true := by
        intro s hs
        rcases List.mem_map.mp hs with ⟨s0, _, rfl⟩
        by_cases hb : (s0.move == am.move) = true
        · simp [hb]
        · simp only [hb, if_false]
          exact h2 s0 (by assumption)
      obtain ⟨fs, heq, hm, hi⟩ := ih slotsUpd tailMoves hmove hinp
      refine ⟨fs, ?_, hm, hi⟩
      rw [mergeInputLoop, if_pos hc, heq]
      have hfilt : (!(vars.contains am.move)) = false := by rw [hcond, hc]; rfl
      have hmem : am.move ∈ vars := by
        have hx : vars.contains am.move = true := by simpa using hfilt
        simpa using hx
      rw [List.filter_cons_of_neg (by simp [hmem])]
    · obtain ⟨fs, heq, hm, hi⟩ := ih slots (tailMoves ++ [am]) h1 h2
      refine ⟨fs, ?_, hm, hi⟩
      rw [mergeInputLoop, if_neg hc, heq]
      have hfilt : (!(vars.contains am.move)) = true := by
        rw [hcond, Bool.eq_false_iff.mpr hc]
        rfl
      rw [List.filter_cons_of_pos (by exact hfilt), List.append_assoc,
        List.singleton_append]

/-- C6 counterexample: the input-move merge stage does not preserve
engine-rank order. With engine candidates a (rank 1) and b (rank 2) and b
an input-tree variation, the merged list is [b, a]: the two surviving
candidates a and b have swapped relative order. -/
theorem forceAddInputMoves_reorder_cex :
    (forceAddInputMoves
        [mkAnalysisMoveInfo 9000 10 ["a"], mkAnalysisMoveInfo 8000 10 ["b"]]
        ["b"]).map AnalysisMoveInfo.move = ["b", "a"] ∧
    ([mkAnalysisMoveInfo 9000 10 ["a"],
        mkAnalysisMoveInfo 8000 10 ["b"]]).map AnalysisMoveInfo.move = ["a", "b"] := by
  constructor <;> rfl

/-- C6 (amended): every stage except the input-move merge preserves
relative candidate order: the strength prunes, the variation filter and
the popularity filter return order-preserving subsequences, and
double-check rewrites candidates positionally without reordering. The
merge stage instead emits one slot per input-tree variation first, in
variation order (all flagged as input moves, slot moves equal to the
variation moves), followed by the engine moves that match no variation in
engine-rank order. No stage re-sorts by score or frequency. -/
theorem pipelineOrder_C6 (l ams : List AnalysisMoveInfo) (tau : Int)
    (vars : List String) (stats : OpeningStats) (gt : ℚ) (tg : Nat)
    (spentNodes : String → Nat) (analyseRestricted : String → Nat → EngineResult)
    (target : Nat) :
    ((pruneWeakMoves l tau).map AnalysisMoveInfo.move).Sublist
      (l.map AnalysisMoveInfo.move) ∧
    ((filterOutVariations l vars).map AnalysisMoveInfo.move).Sublist
      (l.map AnalysisMoveInfo.move) ∧
    ((filterOutPopularMovesAddFreq l stats gt tg).map AnalysisMoveInfo.move).Sublist
      (l.map AnalysisMoveInfo.move) ∧
    (engineAnalysisDoubleCheck spentNodes analyseRestricted target l).length = l.length ∧
    (∀ (info : List RawLine) (c : Int),
        (engineAnalysis info c).1 = (info.filter validRawLine).map rawLineToMove) ∧
    (∃ slots, forceAddInputMoves ams vars =
        slots ++ ams.filter (fun am => !(vars.contains am.move)) ∧
      slots.map AnalysisMoveInfo.move = vars ∧ ∀ s ∈ slots, s.inputMove = true) := by
  refine ⟨pruneWeakMoves_move_sublist l tau, ?_,
    filterOutPopular_move_sublist l stats gt tg, ?_, engineAnalysis_fst, ?_⟩
  · rw [filterOutVariations_eq]
    exact (List.filter_sublist l).map AnalysisMoveInfo.move
  · induction l with
    | nil => rfl
    | cons am rest ih => simp [engineAnalysisDoubleCheck, ih]
  · have hinit : (vars.map
        (fun v => { mkAnalysisMoveInfo 0 0 [v] with inputMove := true })).map
        AnalysisMoveInfo.move = vars := by
      rw [List.map_map]
      have h : (AnalysisMoveInfo.move ∘
          fun v => { mkAnalysisMoveInfo 0 0 [v] with inputMove := true }) = id := by
        funext v
        rfl
      rw [h, List.map_id]
    have hflag : ∀ s ∈ vars.map
        (fun v => { mkAnalysisMoveInfo 0 0 [v] with inputMove := true }),
        s.inputMove = true := by
      intro s hs
      rcases List.mem_map.mp hs with ⟨v, _, rfl⟩
      rfl
    obtain ⟨fs, heq, hm, hi⟩ := mergeInputLoop_spec vars ams _ [] hinit hflag
    refine ⟨fs, ?_, hm, hi⟩
    simp only [forceAddInputMoves]
    rw [heq]
    simp

end NoveltyGrinder
